import Mathlib

/-!
# Verification of the megaeth-tn-stats statistics module

Shallow embedding of `src/statistics.ts`, `src/api-client.ts` (the
`retryWithBackoff` helper) and the transaction-collection loop of
`src/index.ts` into Lean 4, together with theorems settling the stated
properties of the specification.

Modelling conventions:
* JavaScript `BigInt` values are modelled as `Int` (arbitrary precision,
  signed); `BigInt` division truncates toward zero, modelled by `Int.tdiv`.
* A thrown JavaScript exception that propagates out of a function is
  modelled by an `Option`-valued result being `none`.
* JavaScript `Number` results that hold exact integer ratios (gwei / ETH
  display conversions, averages, percentages) are modelled as exact
  rationals `ℚ`; the code performs these divisions exactly once on final
  big-integer results, which is the property under scrutiny, so the
  rational model is the faithful idealisation of that final step.
* JavaScript `Set` insertion order is irrelevant to the reported sizes, so
  sets are modelled as `Finset String`; `Map` insertion order matters for
  the top-address ranking, so maps are modelled as association lists with
  append-on-new-key semantics, exactly the iteration order of a JS `Map`.
-/

/-! ## Model of JavaScript numeric string conversions -/

/-- Value of a decimal digit character, `none` for any other character. -/
def decDigitVal (c : Char) : Option Nat :=
  if '0' ≤ c ∧ c ≤ '9' then some (c.toNat - 48) else none

/-- Value of a hexadecimal digit character, `none` otherwise. -/
def hexDigitVal (c : Char) : Option Nat :=
  if '0' ≤ c ∧ c ≤ '9' then some (c.toNat - 48)
  else if 'a' ≤ c ∧ c ≤ 'f' then some (c.toNat - 87)
  else if 'A' ≤ c ∧ c ≤ 'F' then some (c.toNat - 55)
  else none

/-- Value of an octal digit character, `none` otherwise. -/
def octDigitVal (c : Char) : Option Nat :=
  if '0' ≤ c ∧ c ≤ '7' then some (c.toNat - 48) else none

/-- Value of a binary digit character, `none` otherwise. -/
def binDigitVal (c : Char) : Option Nat :=
  if c = '0' ∨ c = '1' then some (c.toNat - 48) else none

/-- Accumulate digit values in the given base; `none` on an empty digit
sequence or on any non-digit character. -/
def parseDigits (base : Nat) (digitVal : Char → Option Nat) (cs : List Char) :
    Option Nat :=
  if cs.isEmpty then none
  else cs.foldl (fun acc c => acc.bind fun n => (digitVal c).map fun d => base * n + d)
    (some 0)

/-- Strip whitespace from both ends of a character list. -/
def trimWs (cs : List Char) : List Char :=
  ((cs.dropWhile Char.isWhitespace).reverse.dropWhile Char.isWhitespace).reverse

/-- Model of the JavaScript `BigInt(string)` conversion (`StringToBigInt`):
whitespace is trimmed, the empty string converts to `0`, `0x`/`0o`/`0b`
radix literals and optionally signed decimal literals are accepted, and any
other input throws a `SyntaxError`, modelled by `none`. -/
def jsStringToBigInt (s : String) : Option Int :=
  match trimWs s.toList with
  | [] => some 0
  | '0' :: 'x' :: rest => (parseDigits 16 hexDigitVal rest).map Int.ofNat
  | '0' :: 'X' :: rest => (parseDigits 16 hexDigitVal rest).map Int.ofNat
  | '0' :: 'o' :: rest => (parseDigits 8 octDigitVal rest).map Int.ofNat
  | '0' :: 'O' :: rest => (parseDigits 8 octDigitVal rest).map Int.ofNat
  | '0' :: 'b' :: rest => (parseDigits 2 binDigitVal rest).map Int.ofNat
  | '0' :: 'B' :: rest => (parseDigits 2 binDigitVal rest).map Int.ofNat
  | '+' :: rest => (parseDigits 10 decDigitVal rest).map Int.ofNat
  | '-' :: rest => (parseDigits 10 decDigitVal rest).map fun n => -(n : Int)
  | cs => (parseDigits 10 decDigitVal cs).map Int.ofNat

/-- Digits-and-sign part of `jsParseInt`: parse the longest digit run at the
front of `cs` in the given base, `none` (NaN) when there is none. -/
def parseIntDigits (base : Nat) (digitVal : Char → Option Nat) (sign : Int)
    (cs : List Char) : Option Int :=
  (parseDigits base digitVal (cs.takeWhile fun c => (digitVal c).isSome)).map
    fun n => sign * n

/-- Radix dispatch of `jsParseInt` after the optional sign. -/
def jsParseIntCore (sign : Int) (cs : List Char) : Option Int :=
  match cs with
  | '0' :: 'x' :: rest => parseIntDigits 16 hexDigitVal sign rest
  | '0' :: 'X' :: rest => parseIntDigits 16 hexDigitVal sign rest
  | cs => parseIntDigits 10 decDigitVal sign cs

/-- Model of JavaScript `parseInt(string)` (no radix argument): leading
whitespace skipped, optional sign, `0x` hex literals recognised, the
longest leading digit run parsed and the rest ignored; `none` models the
`NaN` result produced when no digit is found. -/
def jsParseInt (s : String) : Option Int :=
  match s.toList.dropWhile Char.isWhitespace with
  | '-' :: rest => jsParseIntCore (-1) rest
  | '+' :: rest => jsParseIntCore 1 rest
  | cs => jsParseIntCore 1 cs

/-- JavaScript `array.map(f)` where `f` may throw: the first `none` (thrown
exception) aborts the whole map, modelled by an overall `none`. -/
def optionMapList {α β : Type} (f : α → Option β) : List α → Option (List β)
  | [] => some []
  | x :: l => (f x).bind fun b => (optionMapList f l).map fun bs => b :: bs

/-- ASCII model of JavaScript `String.prototype.toLowerCase()`: map the 26
upper-case ASCII letters to lower case (blockchain addresses are
hexadecimal ASCII strings, the only inputs the code lowercases). -/
def lowerChar (c : Char) : Char :=
  if 'A' ≤ c ∧ c ≤ 'Z' then Char.ofNat (c.toNat + 32) else c

/-- `s.toLowerCase()` on a string, character by character. -/
def lowerString (s : String) : String := ⟨s.data.map lowerChar⟩

/-! ## Data model (`src/api-client.ts` canonical records) -/

/-- The canonical `Block` record of `src/api-client.ts`. -/
structure Block where
  hash : String
  number : Int
  timestamp : String
  transaction_count : Int
deriving Repr, DecidableEq

/-- The canonical `Transaction` record of `src/api-client.ts`; `to` is
`String | null` in the source, modelled by `Option String`. -/
structure Transaction where
  hash : String
  «from» : String
  «to» : Option String
  value : String
  gas_price : String
  gas_used : String
  gas : String
  timestamp : String
deriving Repr, DecidableEq

/-! ## Result records of `src/statistics.ts` -/

/-- Result record of `computeAverageGasPrice`. -/
structure GasPriceStats where
  averageGasPriceGwei : ℚ
  minGasPriceGwei : ℚ
  maxGasPriceGwei : ℚ
  totalTransactions : Nat
deriving Repr, DecidableEq

/-- Result record of `computeActiveAddresses`. -/
structure ActiveAddressesStats where
  uniqueAddresses : Nat
  uniqueSenders : Nat
  uniqueReceivers : Nat
deriving Repr, DecidableEq

/-- Result record of `computeContractDeployments`. -/
structure ContractDeploymentStats where
  totalDeployments : Nat
  deploymentPercentage : ℚ
deriving Repr, DecidableEq

/-- Result record of `computeBlockTimeStats`. -/
structure BlockTimeStats where
  averageBlockTimeSeconds : ℚ
  minBlockTimeSeconds : ℚ
  maxBlockTimeSeconds : ℚ
  totalBlocks : Nat
deriving Repr, DecidableEq

/-- Result record of `computeTransactionValueStats`. -/
structure TransactionValueStats where
  totalValueEth : ℚ
  averageValueEth : ℚ
  minValueEth : ℚ
  maxValueEth : ℚ
  totalTransactions : Nat
deriving Repr, DecidableEq

/-! ## Gas price statistics (`computeAverageGasPrice`) -/

/-- The argument passed to `BigInt` for a gas price: `tx.gas_price || '0'`
(the empty string is the only falsy string). -/
def gasPriceArg (tx : Transaction) : String :=
  if tx.gas_price = "" then "0" else tx.gas_price

/-- The `gasPricesWei` intermediate of `computeAverageGasPrice`:
`transactions.map(tx => BigInt(tx.gas_price || '0')).filter(p => p > 0n)`.
`none` models the `SyntaxError` thrown by `BigInt` on an unparsable string,
which `computeAverageGasPrice` does not catch. -/
def gasPricesWeiOf (transactions : List Transaction) : Option (List Int) :=
  (optionMapList (fun tx => jsStringToBigInt (gasPriceArg tx)) transactions).map
    (List.filter fun p => decide (0 < p))

/-- `weiToGwei`: final display conversion, `Number(wei) / 1e9`, modelled as
the exact rational ratio. -/
def weiToGwei (wei : Int) : ℚ := (wei : ℚ) / 1000000000

/-- Second half of `computeAverageGasPrice`: the statistics computed from
the filtered positive gas-price list and the original input length. -/
def gasStatsOfList (gasPricesWei : List Int) (n : Nat) : GasPriceStats :=
  if gasPricesWei.length = 0 then
    ⟨0, 0, 0, n⟩
  else
    let sumGasPrice := gasPricesWei.foldl (· + ·) 0
    let averageGasPriceWei := Int.tdiv sumGasPrice gasPricesWei.length
    let head0 := gasPricesWei.headD 0
    let minGasPriceWei :=
      gasPricesWei.foldl (fun m p => if p < m then p else m) head0
    let maxGasPriceWei :=
      gasPricesWei.foldl (fun m p => if m < p then p else m) head0
    ⟨weiToGwei averageGasPriceWei, weiToGwei minGasPriceWei,
      weiToGwei maxGasPriceWei, n⟩

/-- Shallow embedding of `computeAverageGasPrice` (`src/statistics.ts`).
The result is `none` exactly when the uncaught `BigInt` conversion throws. -/
def computeAverageGasPrice (transactions : List Transaction) :
    Option GasPriceStats :=
  if transactions.length = 0 then
    some ⟨0, 0, 0, 0⟩
  else
    (gasPricesWeiOf transactions).map fun gasPricesWei =>
      gasStatsOfList gasPricesWei transactions.length

/-! ## Transaction value statistics (`computeTransactionValueStats`) -/

/-- The argument passed to `BigInt` for a value: `tx.value || '0'`. -/
def valueArg (tx : Transaction) : String :=
  if tx.value = "" then "0" else tx.value

/-- Parsed value of one transaction: `try { BigInt(tx.value || '0') }
catch { 0n }` — the catch makes the parse total. -/
def parsedValueWei (tx : Transaction) : Int :=
  (jsStringToBigInt (valueArg tx)).getD 0

/-- The `valuesWei` intermediate of `computeTransactionValueStats`. -/
def valuesWeiOf (transactions : List Transaction) : List Int :=
  (transactions.map parsedValueWei).filter fun v => decide (0 < v)

/-- `weiToEth`: final display conversion, `Number(wei) / 1e18`, modelled as
the exact rational ratio. -/
def weiToEth (wei : Int) : ℚ := (wei : ℚ) / 1000000000000000000

/-- Second half of `computeTransactionValueStats`: the statistics computed
from the filtered positive value list and the original input length. -/
def valueStatsOfList (valuesWei : List Int) (n : Nat) : TransactionValueStats :=
  if valuesWei.length = 0 then
    ⟨0, 0, 0, 0, n⟩
  else
    let sumValue := valuesWei.foldl (· + ·) 0
    let averageValueWei := Int.tdiv sumValue valuesWei.length
    let head0 := valuesWei.headD 0
    let minValueWei := valuesWei.foldl (fun m v => if v < m then v else m) head0
    let maxValueWei := valuesWei.foldl (fun m v => if m < v then v else m) head0
    ⟨weiToEth sumValue, weiToEth averageValueWei, weiToEth minValueWei,
      weiToEth maxValueWei, n⟩

/-- Shallow embedding of `computeTransactionValueStats`
(`src/statistics.ts`); total because every `BigInt` call is wrapped in a
`try`/`catch` that substitutes `0n`. -/
def computeTransactionValueStats (transactions : List Transaction) :
    TransactionValueStats :=
  if transactions.length = 0 then
    ⟨0, 0, 0, 0, 0⟩
  else
    valueStatsOfList (valuesWeiOf transactions) transactions.length

/-! ## Active addresses (`computeActiveAddresses`) -/

/-- The lowercased sender key contributed by a transaction: `none` when
`tx.from` is the empty string (falsy in the `if (tx.from)` guard). -/
def senderKey (tx : Transaction) : Option String :=
  if tx.«from» = "" then none else some (lowerString tx.«from»)

/-- The lowercased receiver key contributed by a transaction: `none` when
`tx.«to»` is `null` or empty (falsy in the `if (tx.«to»)` guard). -/
def receiverKey (tx : Transaction) : Option String :=
  match tx.«to» with
  | none => none
  | some t => if t = "" then none else some (lowerString t)

/-- One iteration of the `transactions.forEach` loop of
`computeActiveAddresses`, threading `(senders, receivers, allAddresses)`. -/
def activeStep (acc : Finset String × Finset String × Finset String)
    (tx : Transaction) : Finset String × Finset String × Finset String :=
  let acc1 :=
    if tx.«from» = "" then acc
    else (insert (lowerString tx.«from») acc.1, acc.2.1, insert (lowerString tx.«from») acc.2.2)
  match tx.«to» with
  | none => acc1
  | some t =>
    if t = "" then acc1
    else (acc1.1, insert (lowerString t) acc1.2.1, insert (lowerString t) acc1.2.2)

/-- Shallow embedding of `computeActiveAddresses` (`src/statistics.ts`). -/
def computeActiveAddresses (transactions : List Transaction) :
    ActiveAddressesStats :=
  let acc := transactions.foldl activeStep (∅, ∅, ∅)
  ⟨acc.2.2.card, acc.1.card, acc.2.1.card⟩

/-! ## Contract deployments (`computeContractDeployments`) -/

/-- Shallow embedding of `computeContractDeployments` (`src/statistics.ts`):
`tx.«to» === null || tx.«to» === ''` selects deployments. -/
def computeContractDeployments (transactions : List Transaction) :
    ContractDeploymentStats :=
  let deployments :=
    transactions.filter fun tx => tx.«to» == none || tx.«to» == some ""
  let totalDeployments := deployments.length
  let deploymentPercentage : ℚ :=
    if transactions.length > 0 then
      ((totalDeployments : ℚ) / (transactions.length : ℚ)) * 100
    else 0
  ⟨totalDeployments, deploymentPercentage⟩

/-! ## Block time statistics (`computeBlockTimeStats`) -/

/-- The JS comparator `(a, b) => a.number - b.number` as a sort key:
ascending by `number`; `Array.prototype.sort` is stable, modelled by
`List.mergeSort`. -/
def blockLe (a b : Block) : Bool := decide (a.number ≤ b.number)

/-- The consecutive deltas `timestamp[i] - timestamp[i-1]` of a list of
parsed timestamps. -/
def blockTimesOf (ts : List Int) : List Int :=
  (ts.zip ts.tail).map fun p => p.2 - p.1

/-- The statistics computed from the list of consecutive deltas and the
original input length. -/
def blockTimeStatsOfTimes (blockTimes : List Int) (n : Nat) : BlockTimeStats :=
  if blockTimes.length = 0 then
    ⟨0, 0, 0, n⟩
  else
    let sum : Int := blockTimes.foldl (· + ·) 0
    let average : ℚ := (sum : ℚ) / (blockTimes.length : ℚ)
    let head0 := blockTimes.headD 0
    let mn := blockTimes.foldl (fun m d => if d < m then d else m) head0
    let mx := blockTimes.foldl (fun m d => if m < d then d else m) head0
    ⟨average, (mn : ℚ), (mx : ℚ), n⟩

/-- Everything `computeBlockTimeStats` does after sorting, parameterised by
the sorted list and the original input length. `none` models the
`NaN`-polluted statistics produced when some timestamp fails `parseInt`. -/
def blockTimeStatsOfSorted (sortedBlocks : List Block) (n : Nat) :
    Option BlockTimeStats :=
  (optionMapList (fun b => jsParseInt b.timestamp) sortedBlocks).map fun ts =>
    blockTimeStatsOfTimes (blockTimesOf ts) n

/-- Shallow embedding of `computeBlockTimeStats` (`src/statistics.ts`). -/
def computeBlockTimeStats (blocks : List Block) : Option BlockTimeStats :=
  if blocks.length < 2 then
    some ⟨0, 0, 0, blocks.length⟩
  else
    blockTimeStatsOfSorted (blocks.mergeSort blockLe) blocks.length

/-! ## Top addresses (`computeTopAddresses`) -/

/-- `addressCounts.set(addr, (addressCounts.get(addr) || 0) + 1)` on a JS
`Map`, modelled on an insertion-ordered association list: an existing key is
updated in place, a new key is appended at the end. -/
def bumpAddress (m : List (String × Nat)) (addr : String) :
    List (String × Nat) :=
  if m.any fun p => p.1 == addr then
    m.map fun p => if p.1 == addr then (p.1, p.2 + 1) else p
  else m ++ [(addr, 1)]

/-- One iteration of the `transactions.forEach` loop of
`computeTopAddresses`: bump the lowercased `from` (if truthy), then the
lowercased `to` (if truthy). -/
def topStep (m : List (String × Nat)) (tx : Transaction) :
    List (String × Nat) :=
  let m1 := if tx.«from» = "" then m else bumpAddress m (lowerString tx.«from»)
  match tx.«to» with
  | none => m1
  | some t => if t = "" then m1 else bumpAddress m1 (lowerString t)

/-- The fully accumulated `addressCounts` map, in insertion order. -/
def accumAddressCounts (transactions : List Transaction) :
    List (String × Nat) :=
  transactions.foldl topStep []

/-- The stable descending-by-count comparator `(a, b) => b[1] - a[1]`. -/
def countGe (a b : String × Nat) : Bool := decide (b.2 ≤ a.2)

/-- Shallow embedding of `computeTopAddresses` (`src/statistics.ts`): sort
the accumulated entries descending by count (stable) and keep the first
`limit`; entries are `(address, transactionCount)` pairs. -/
def computeTopAddresses (transactions : List Transaction) (limit : Nat := 5) :
    List (String × Nat) :=
  ((accumAddressCounts transactions).mergeSort countGe).take limit

/-! ## Retry with exponential backoff (`BlockscoutApiClient.retryWithBackoff`) -/

/-- Observable trace of one `retryWithBackoff` run: the surfaced result
(`Except.error none` models `throw new Error('Unknown error occurred')`,
`Except.error (some e)` models `throw lastError`), the number of times the
operation was invoked, and the list of backoff delays awaited, in order. -/
structure RetryTrace (E A : Type) where
  result : Except (Option E) A
  invocations : Nat
  delays : List Nat
deriving Repr

/-- The `for (let attempt = 0; attempt < maxRetries; attempt++)` loop of
`retryWithBackoff`. `fn k` is the outcome of the `(k+1)`-th invocation of
the operation; `n` is the number of loop iterations remaining, `total` the
loop bound `maxRetries`, `lastError` the current `lastError` variable. -/
def retryLoop {E A : Type} (fn : Nat → Except E A) (total : Nat) (d : Nat) :
    Nat → Nat → Option E → RetryTrace E A
  | 0, _, lastError => ⟨Except.error lastError, 0, []⟩
  | n + 1, attempt, _ =>
    match fn attempt with
    | Except.ok a => ⟨Except.ok a, 1, []⟩
    | Except.error e =>
      let rest := retryLoop fn total d n (attempt + 1) (some e)
      ⟨rest.result, rest.invocations + 1,
        (if attempt + 1 < total then [d * 2 ^ attempt] else []) ++ rest.delays⟩

/-- Shallow embedding of `BlockscoutApiClient.retryWithBackoff`
(`src/api-client.ts`). `maxRetries` is an `Int` because the JS parameter may
be non-positive; the loop then runs `maxRetries.toNat` times (zero times for
a non-positive bound) and the delay guard `attempt < maxRetries - 1` becomes
`attempt + 1 < maxRetries.toNat`. -/
def retryWithBackoff {E A : Type} (fn : Nat → Except E A) (maxRetries : Int)
    (initialDelay : Nat) : RetryTrace E A :=
  retryLoop fn maxRetries.toNat initialDelay maxRetries.toNat 0 none

/-! ## Transaction collection loop of `src/index.ts` -/

/-- The block sub-list iterated by the transaction-fetch loop of `main`:
`blocks.slice(0, Math.min(20, blocks.length))`. -/
def fetchSelection (blocks : List Block) : List Block :=
  blocks.take (min 20 blocks.length)

/-- The transaction-collection loop of `main` (`src/index.ts`): for each
selected block, fetch its transactions (the `fetch` oracle stands for the
retry-wrapped `getTransactions` call) and append them; a failed fetch is
caught and the block skipped. -/
def collectTransactions (blocks : List Block)
    (fetch : Block → Except String (List Transaction)) : List Transaction :=
  (fetchSelection blocks).foldl
    (fun acc b =>
      match fetch b with
      | Except.ok blockTxs => acc ++ blockTxs
      | Except.error _ => acc)
    []

/-! ## Generic reduction lemmas -/

theorem foldl_add_int (l : List Int) (a : Int) : l.foldl (· + ·) a = a + l.sum := by
  induction l generalizing a with
  | nil => simp
  | cons x l ih => simp [List.foldl_cons, ih, add_assoc]

theorem min_fun_eq : (fun (m p : Int) => if p < m then p else m) = min := by
  funext m p
  rw [min_def]
  by_cases h : m ≤ p
  · rw [if_pos h, if_neg (by omega)]
  · rw [if_neg h, if_pos (by omega)]

theorem max_fun_eq : (fun (m p : Int) => if m < p then p else m) = max := by
  funext m p
  rw [max_def]
  by_cases h : m ≤ p
  · rw [if_pos h]
    by_cases h' : m < p
    · rw [if_pos h']
    · rw [if_neg h']; omega
  · rw [if_neg h, if_neg (by omega)]

theorem foldl_min_spec (l : List Int) : ∀ a : Int,
    (l.foldl min a = a ∨ l.foldl min a ∈ l) ∧ l.foldl min a ≤ a ∧
      ∀ x ∈ l, l.foldl min a ≤ x := by
  induction l with
  | nil => intro a; simp
  | cons c l ih =>
    intro a
    rw [List.foldl_cons]
    obtain ⟨hmem, hle, hall⟩ := ih (min a c)
    refine ⟨?_, le_trans hle (min_le_left _ _), ?_⟩
    · rcases hmem with h | h
      · rcases min_choice a c with hm | hm
        · left; rw [h, hm]
        · right; rw [h, hm]; exact List.mem_cons_self _ _
      · right; exact List.mem_cons_of_mem _ h
    · intro x hx
      rcases List.mem_cons.mp hx with rfl | hx'
      · exact le_trans hle (min_le_right _ _)
      · exact hall x hx'

theorem foldl_max_spec (l : List Int) : ∀ a : Int,
    (l.foldl max a = a ∨ l.foldl max a ∈ l) ∧ a ≤ l.foldl max a ∧
      ∀ x ∈ l, x ≤ l.foldl max a := by
  induction l with
  | nil => intro a; simp
  | cons c l ih =>
    intro a
    rw [List.foldl_cons]
    obtain ⟨hmem, hle, hall⟩ := ih (max a c)
    refine ⟨?_, le_trans (le_max_left _ _) hle, ?_⟩
    · rcases hmem with h | h
      · rcases max_choice a c with hm | hm
        · left; rw [h, hm]
        · right; rw [h, hm]; exact List.mem_cons_self _ _
      · right; exact List.mem_cons_of_mem _ h
    · intro x hx
      rcases List.mem_cons.mp hx with rfl | hx'
      · exact le_trans (le_max_right _ _) hle
      · exact hall x hx'

theorem optionMapList_length {α β : Type} (f : α → Option β) :
    ∀ (l : List α) (l' : List β), optionMapList f l = some l' →
      l'.length = l.length := by
  intro l
  induction l with
  | nil =>
    intro l' h
    simp only [optionMapList] at h
    obtain rfl : ([] : List β) = l' := Option.some_inj.mp h
    rfl
  | cons x l ih =>
    intro l' h
    simp only [optionMapList] at h
    cases hx : f x with
    | none => rw [hx] at h; simp at h
    | some b =>
      rw [hx] at h
      cases hl : optionMapList f l with
      | none => rw [hl] at h; simp at h
      | some bs =>
        rw [hl] at h
        simp at h
        rw [← h]
        simp [ih bs hl]

theorem optionMapList_isSome {α β : Type} (f : α → Option β) :
    ∀ l : List α, (∀ x ∈ l, (f x).isSome) → ∃ l', optionMapList f l = some l' := by
  intro l
  induction l with
  | nil => intro _; exact ⟨[], rfl⟩
  | cons x l ih =>
    intro h
    obtain ⟨b, hb⟩ := Option.isSome_iff_exists.mp (h x (List.mem_cons_self _ _))
    obtain ⟨bs, hbs⟩ := ih fun y hy => h y (List.mem_cons_of_mem _ hy)
    exact ⟨b :: bs, by simp only [optionMapList, hb, hbs]; rfl⟩

/-! ## Retry loop lemmas -/

theorem range_map_shift {α : Type} (f : Nat → α) (k : Nat) :
    (List.range (k + 1)).map f = f 0 :: (List.range k).map fun j => f (j + 1) := by
  rw [List.range_succ_eq_map, List.map_cons, List.map_map]
  rfl

theorem retryLoop_ok {E A : Type} (fn : Nat → Except E A) (total d : Nat) :
    ∀ (k n attempt : Nat) (err : Option E) (a : A),
      k < n → attempt + n = total →
      (∀ j, j < k → ∃ e, fn (attempt + j) = Except.error e) →
      fn (attempt + k) = Except.ok a →
      retryLoop fn total d n attempt err =
        ⟨Except.ok a, k + 1, (List.range k).map fun j => d * 2 ^ (attempt + j)⟩ := by
  intro k
  induction k with
  | zero =>
    intro n attempt err a hk htot hfail hok
    obtain ⟨n, rfl⟩ : ∃ m, n = m + 1 := ⟨n - 1, by omega⟩
    rw [Nat.add_zero] at hok
    simp only [retryLoop, hok]
    rfl
  | succ k ih =>
    intro n attempt err a hk htot hfail hok
    obtain ⟨n, rfl⟩ : ∃ m, n = m + 1 := ⟨n - 1, by omega⟩
    obtain ⟨e0, he0⟩ := hfail 0 (Nat.succ_pos k)
    rw [Nat.add_zero] at he0
    have hrest := ih n (attempt + 1) (some e0) a (by omega) (by omega)
      (fun j hj => by
        obtain ⟨e, he⟩ := hfail (j + 1) (by omega)
        exact ⟨e, by rw [show attempt + 1 + j = attempt + (j + 1) by omega]; exact he⟩)
      (by rw [show attempt + 1 + k = attempt + (k + 1) by omega]; exact hok)
    simp only [retryLoop, he0, hrest]
    have hguard : attempt + 1 < total := by omega
    rw [if_pos hguard]
    refine congrArg (RetryTrace.mk (Except.ok a) (k + 1 + 1)) ?_
    rw [range_map_shift (fun j => d * 2 ^ (attempt + j)) k]
    simp only [Nat.add_zero, List.singleton_append]
    refine congrArg (d * 2 ^ attempt :: ·) (List.map_congr_left fun j _ => ?_)
    rw [show attempt + 1 + j = attempt + (j + 1) by omega]

theorem retryLoop_all_fail {E A : Type} (fn : Nat → Except E A) (total d : Nat) :
    ∀ (n attempt : Nat) (err : Option E),
      0 < n → attempt + n = total →
      (∀ j, j < n → ∃ e, fn (attempt + j) = Except.error e) →
      ∃ e, fn (attempt + (n - 1)) = Except.error e ∧
        retryLoop fn total d n attempt err =
          ⟨Except.error (some e), n, (List.range (n - 1)).map fun j => d * 2 ^ (attempt + j)⟩ := by
  intro n
  induction n with
  | zero => intro attempt err h; omega
  | succ n ih =>
    intro attempt err hpos htot hfail
    obtain ⟨e0, he0⟩ := hfail 0 (Nat.succ_pos n)
    rw [Nat.add_zero] at he0
    by_cases hn : n = 0
    · subst hn
      refine ⟨e0, by simpa using he0, ?_⟩
      have hguard : ¬ attempt + 1 < total := by omega
      simp only [retryLoop, he0, if_neg hguard]
      rfl
    · obtain ⟨e, he, hrec⟩ := ih (attempt + 1) (some e0) (by omega) (by omega)
        (fun j hj => by
          obtain ⟨e', he'⟩ := hfail (j + 1) (by omega)
          exact ⟨e', by rw [show attempt + 1 + j = attempt + (j + 1) by omega]; exact he'⟩)
      refine ⟨e, ?_, ?_⟩
      · rw [show attempt + (n + 1 - 1) = attempt + 1 + (n - 1) by omega]
        exact he
      · simp only [retryLoop, he0, hrec]
        have hguard : attempt + 1 < total := by omega
        rw [if_pos hguard]
        refine congrArg (RetryTrace.mk (Except.error (some e)) (n + 1)) ?_
        rw [show n + 1 - 1 = (n - 1) + 1 by omega,
          range_map_shift (fun j => d * 2 ^ (attempt + j)) (n - 1)]
        simp only [Nat.add_zero, List.singleton_append]
        refine congrArg (d * 2 ^ attempt :: ·) (List.map_congr_left fun j _ => ?_)
        rw [show attempt + 1 + j = attempt + (j + 1) by omega]

theorem retryLoop_invocations_le {E A : Type} (fn : Nat → Except E A) (total d : Nat) :
    ∀ (n attempt : Nat) (err : Option E),
      (retryLoop fn total d n attempt err).invocations ≤ n := by
  intro n
  induction n with
  | zero => intro attempt err; exact Nat.le_refl 0
  | succ n ih =>
    intro attempt err
    simp only [retryLoop]
    cases fn attempt with
    | ok a => exact Nat.succ_le_succ (Nat.zero_le n)
    | error e => simpa using Nat.succ_le_succ (ih (attempt + 1) (some e))

/-! ## Claim theorems: retry behaviour -/

/-- C2: for every operation, `maxRetries` m ≥ 1 and initial delay d,
`retryWithBackoff` invokes the operation at most m times; if the (k+1)-th
invocation is the first to succeed it returns that result immediately with
exactly k+1 invocations; if all m attempts fail, the surfaced failure is
exactly the m-th attempt's failure (earlier failures are discarded); and the
wait before the retry following 0-based attempt k is d * 2^k. -/
theorem retryWithBackoff_spec {E A : Type} (fn : Nat → Except E A) (m : Int)
    (d : Nat) (hm : 1 ≤ m) :
    (retryWithBackoff fn m d).invocations ≤ m.toNat ∧
    (∀ (k : Nat) (a : A), (k : Int) < m →
      (∀ j, j < k → ∃ e, fn j = Except.error e) → fn k = Except.ok a →
      retryWithBackoff fn m d =
        ⟨Except.ok a, k + 1, (List.range k).map fun j => d * 2 ^ j⟩) ∧
    ((∀ j : Nat, (j : Int) < m → ∃ e, fn j = Except.error e) →
      ∃ e, fn (m.toNat - 1) = Except.error e ∧
        retryWithBackoff fn m d =
          ⟨Except.error (some e), m.toNat,
            (List.range (m.toNat - 1)).map fun j => d * 2 ^ j⟩) := by
  refine ⟨retryLoop_invocations_le fn m.toNat d m.toNat 0 none, ?_, ?_⟩
  · intro k a hk hfail hok
    have h := retryLoop_ok fn m.toNat d k m.toNat 0 none a (by omega) (by omega)
      (fun j hj => by simpa using hfail j hj) (by simpa using hok)
    rw [retryWithBackoff, h]
    refine congrArg (RetryTrace.mk (Except.ok a) (k + 1)) ?_
    exact List.map_congr_left fun j _ => by rw [Nat.zero_add]
  · intro hfail
    obtain ⟨e, he, hloop⟩ := retryLoop_all_fail fn m.toNat d m.toNat 0 none
      (by omega) (by omega) (fun j hj => by simpa using hfail j (by omega))
    refine ⟨e, by simpa using he, ?_⟩
    rw [retryWithBackoff, hloop]
    refine congrArg (RetryTrace.mk (Except.error (some e)) m.toNat) ?_
    exact List.map_congr_left fun j _ => by rw [Nat.zero_add]

/-- A concrete operation for retry witnesses: fails on the first two
invocations, succeeds on the third. -/
def witnessOp (k : Nat) : Except String Nat :=
  if k < 2 then Except.error ("fail " ++ toString k) else Except.ok (100 + k)

/-- Witness for C2: `witnessOp` fails twice then succeeds, so with
`maxRetries = 3` and `initialDelay = 7` the run succeeds on the third
invocation after backoff waits of 7 and 14. -/
theorem retryWithBackoff_spec_witness :
    retryWithBackoff witnessOp 3 7 = ⟨Except.ok 102, 3, [7, 14]⟩ := by
  have h := (retryWithBackoff_spec witnessOp 3 7 (by decide)).2.1 2 102 (by decide)
    (fun j hj => ⟨"fail " ++ toString j, by
      interval_cases j
      · rfl
      · rfl⟩)
    (by rfl)
  rw [h]
  rfl

/-- C10: calling `retryWithBackoff` with `maxRetries ≤ 0` never invokes the
operation and surfaces the generic failure (`lastError` is still undefined,
so the code throws `new Error('Unknown error occurred')`, modelled by
`Except.error none`). -/
theorem retryWithBackoff_nonpos {E A : Type} (fn : Nat → Except E A)
    (m : Int) (d : Nat) (hm : m ≤ 0) :
    retryWithBackoff fn m d = ⟨Except.error none, 0, []⟩ := by
  rw [retryWithBackoff, Int.toNat_of_nonpos hm]
  rfl

/-- Witness for C10 at `maxRetries = -2`. -/
theorem retryWithBackoff_nonpos_witness :
    retryWithBackoff witnessOp (-2) 9 = ⟨Except.error none, 0, []⟩ :=
  retryWithBackoff_nonpos witnessOp (-2) 9 (by decide)

/-! ## Claim theorems: contract deployments and the fetch window -/

/-- The specification's deployment predicate: `to` is null or empty. -/
def isDeployment (tx : Transaction) : Prop := tx.«to» = none ∨ tx.«to» = some ""

instance : DecidablePred isDeployment := fun tx => by
  unfold isDeployment; infer_instance

/-- C8: a transaction is counted as a deployment iff its `to` is null or
the empty string, and the reported percentage is `100 * D / n` for a
non-empty input of length n with D deployments, and 0 for an empty input. -/
theorem computeContractDeployments_spec (txs : List Transaction) :
    ∃ D : Nat,
      computeContractDeployments txs =
        ⟨D, if txs.length = 0 then 0 else 100 * (D : ℚ) / (txs.length : ℚ)⟩ ∧
      D = txs.countP fun tx => decide (isDeployment tx) := by
  refine ⟨(txs.filter fun tx => tx.«to» == none || tx.«to» == some "").length, ?_, ?_⟩
  · rw [computeContractDeployments]
    by_cases h : txs.length = 0
    · simp only [h, gt_iff_lt, Nat.lt_irrefl, if_neg (lt_irrefl 0), if_pos rfl]
      simp
    · have hpos : txs.length > 0 := Nat.pos_of_ne_zero h
      simp only [gt_iff_lt, hpos, if_pos, if_neg h]
      refine congrArg _ ?_
      ring
  · rw [List.countP_eq_length_filter]
    refine congrArg List.length (List.filter_congr fun tx _ => ?_)
    rcases htx : tx.«to» with _ | t
    · simp [isDeployment, htx]
    · rw [Bool.eq_iff_iff]
      simp [isDeployment, htx]

/-- C9: the transaction-collection loop of `main` touches only the first
`min(20, blocks.length)` blocks — which is exactly the first 20 — so the
collected transactions (and hence every transaction statistic) depend only
on `blocks.take 20`; blocks beyond the first 20 are never fetched. -/
theorem collectTransactions_first20 (blocks : List Block)
    (fetch : Block → Except String (List Transaction)) :
    fetchSelection blocks = blocks.take 20 ∧
    collectTransactions blocks fetch = collectTransactions (blocks.take 20) fetch := by
  have hsel : ∀ bs : List Block, fetchSelection bs = bs.take 20 := by
    intro bs
    rw [fetchSelection]
    rcases le_or_lt 20 bs.length with h | h
    · rw [min_eq_left h]
    · rw [min_eq_right (le_of_lt h), List.take_length,
        List.take_of_length_le (le_of_lt h)]
  refine ⟨hsel blocks, ?_⟩
  rw [collectTransactions, collectTransactions, hsel blocks, hsel (blocks.take 20),
    List.take_take, min_self]

/-! ## Claim theorems: active addresses -/

/-- Specification-level sender set: lowercased non-empty `from` fields. -/
def sendersSpec (txs : List Transaction) : Finset String :=
  (txs.filterMap senderKey).toFinset

/-- Specification-level receiver set: lowercased non-null non-empty `to`
fields. -/
def receiversSpec (txs : List Transaction) : Finset String :=
  (txs.filterMap receiverKey).toFinset

theorem activeStep_fold (txs : List Transaction) :
    ∀ s r a : Finset String,
      txs.foldl activeStep (s, r, a) =
        (s ∪ sendersSpec txs, r ∪ receiversSpec txs,
          a ∪ sendersSpec txs ∪ receiversSpec txs) := by
  induction txs with
  | nil =>
    intro s r a
    simp [sendersSpec, receiversSpec]
  | cons tx txs ih =>
    intro s r a
    rw [List.foldl_cons]
    have hsf : sendersSpec (tx :: txs) =
        (senderKey tx).toFinset ∪ sendersSpec txs := by
      rw [sendersSpec, sendersSpec, List.filterMap_cons]
      cases senderKey tx with
      | none => simp
      | some k => simp [List.toFinset_cons, Finset.insert_eq]
    have hrf : receiversSpec (tx :: txs) =
        (receiverKey tx).toFinset ∪ receiversSpec txs := by
      rw [receiversSpec, receiversSpec, List.filterMap_cons]
      cases receiverKey tx with
      | none => simp
      | some k => simp [List.toFinset_cons, Finset.insert_eq]
    have hstep : activeStep (s, r, a) tx =
        (s ∪ (senderKey tx).toFinset, r ∪ (receiverKey tx).toFinset,
          a ∪ (senderKey tx).toFinset ∪ (receiverKey tx).toFinset) := by
      rw [activeStep]
      by_cases hf : tx.«from» = "" <;> rcases hto : tx.«to» with _ | t <;>
        [skip; by_cases ht : t = ""; skip; by_cases ht : t = ""] <;>
        · simp [hf, senderKey, receiverKey, hto, Finset.insert_eq, *]
          repeat' apply And.intro
          all_goals ac_rfl
    rw [hstep, ih, hsf, hrf]
    refine congrArg₂ Prod.mk ?_ (congrArg₂ Prod.mk ?_ ?_) <;> ac_rfl

/-- C7: `computeActiveAddresses` reports exactly the cardinalities of the
lowercased non-empty sender set, the lowercased non-null non-empty receiver
set, and their union; empty `from` / null-or-empty `to` fields contribute
nothing, and case variants of an address land in the same set element. -/
theorem computeActiveAddresses_spec (txs : List Transaction) :
    computeActiveAddresses txs =
      ⟨(sendersSpec txs ∪ receiversSpec txs).card, (sendersSpec txs).card,
        (receiversSpec txs).card⟩ := by
  rw [computeActiveAddresses, activeStep_fold txs ∅ ∅ ∅]
  simp

/-! ## Claim theorems: positive filter and empty-set policy -/

/-- C3: both statistics filter to strictly positive parsed base-unit
amounts; when the filtered set is empty the result is all-zero min/avg/max
(and zero total value) with `totalTransactions` equal to the original input
length, and `totalTransactions = 0` exactly when the input array is empty. -/
theorem stats_empty_filter_spec (txs : List Transaction) :
    ((valuesWeiOf txs = [] →
        computeTransactionValueStats txs = ⟨0, 0, 0, 0, txs.length⟩) ∧
      ((computeTransactionValueStats txs).totalTransactions = 0 ↔ txs = [])) ∧
    (∀ (r : GasPriceStats) (g : List Int),
      computeAverageGasPrice txs = some r → gasPricesWeiOf txs = some g →
      (g = [] → r = ⟨0, 0, 0, txs.length⟩) ∧
      (r.totalTransactions = 0 ↔ txs = [])) := by
  constructor
  · by_cases h0 : txs.length = 0
    · obtain rfl : txs = [] := List.length_eq_zero.mp h0
      exact ⟨fun _ => rfl, by simp [computeTransactionValueStats]⟩
    · have hne : txs ≠ [] := fun h => h0 (by simp [h])
      rw [computeTransactionValueStats, if_neg h0]
      constructor
      · intro hv
        rw [valueStatsOfList, hv]
        rfl
      · rw [valueStatsOfList]
        by_cases hv : (valuesWeiOf txs).length = 0
        · rw [if_pos hv]
          simp
        · rw [if_neg hv]
          simp
  · intro r g hr hg
    by_cases h0 : txs.length = 0
    · obtain rfl : txs = [] := List.length_eq_zero.mp h0
      have hr' : some (⟨0, 0, 0, 0⟩ : GasPriceStats) = some r := hr
      obtain rfl : (⟨0, 0, 0, 0⟩ : GasPriceStats) = r := Option.some_inj.mp hr'
      exact ⟨fun _ => rfl, by simp⟩
    · have hne : txs ≠ [] := fun h => h0 (by simp [h])
      rw [computeAverageGasPrice, if_neg h0, hg, Option.map_some'] at hr
      obtain rfl : gasStatsOfList g txs.length = r := Option.some_inj.mp hr
      constructor
      · intro hnil
        rw [gasStatsOfList, hnil]
        rfl
      · rw [gasStatsOfList]
        by_cases hg0 : g.length = 0
        · rw [if_pos hg0]
          simp
        · rw [if_neg hg0]
          simp

/-- A transaction with zero gas price and zero value. -/
def txZero : Transaction :=
  ⟨"0x1", "0xa", some "0xb", "0", "0", "21000", "21000", "1000"⟩

/-- Witness for C3: a single all-zero transaction has an empty positive
filter, and both statistics report zeros with `totalTransactions = 1`. -/
theorem stats_empty_filter_spec_witness :
    computeTransactionValueStats [txZero] = ⟨0, 0, 0, 0, 1⟩ ∧
    (⟨0, 0, 0, 1⟩ : GasPriceStats) = ⟨0, 0, 0, [txZero].length⟩ := by
  refine ⟨(stats_empty_filter_spec [txZero]).1.1 rfl, ?_⟩
  exact ((stats_empty_filter_spec [txZero]).2 ⟨0, 0, 0, 1⟩ [] rfl rfl).1 rfl

/-! ## Claim theorems: parse-failure policy -/

/-- A transaction whose `gas_price` string is not an integer literal. -/
def badGasTx : Transaction :=
  ⟨"0x2", "0xa", some "0xb", "5", "abc", "21000", "21000", "1000"⟩

/-- C1 counterexample: `computeAverageGasPrice` does not catch the
`SyntaxError` thrown by `BigInt('abc')`, so on a transaction whose
`gas_price` is a non-empty unparsable string the whole computation aborts
(`none` models the propagated exception) instead of treating the field as 0. -/
theorem computeAverageGasPrice_raises_on_bad_string :
    computeAverageGasPrice [badGasTx] = none := by rfl

/-- Replace a transaction's `value` by `"0"` when `BigInt(tx.value || '0')`
would throw. -/
def sanitizeValue (tx : Transaction) : Transaction :=
  if (jsStringToBigInt (valueArg tx)).isSome then tx
  else { tx with value := "0" }

/-- C1 amended: `computeTransactionValueStats` is total and treats an
empty, absent or unparsable `value` as 0 (replacing every unparsable value
by `"0"` does not change its result), while `computeAverageGasPrice`
treats an empty or absent `gas_price` as 0 but is total only on inputs
whose `gas_price` strings all convert without throwing — a non-empty
unparsable `gas_price` aborts it (see the counterexample). -/
theorem parse_failure_policy_amended (txs : List Transaction)
    (h : ∀ tx ∈ txs, (jsStringToBigInt (gasPriceArg tx)).isSome) :
    (∃ r, computeAverageGasPrice txs = some r) ∧
    computeTransactionValueStats txs =
      computeTransactionValueStats (txs.map sanitizeValue) := by
  constructor
  · by_cases h0 : txs.length = 0
    · exact ⟨⟨0, 0, 0, 0⟩, by rw [computeAverageGasPrice, if_pos h0]⟩
    · obtain ⟨l, hl⟩ := optionMapList_isSome _ txs h
      refine ⟨gasStatsOfList (l.filter fun p => decide (0 < p)) txs.length, ?_⟩
      rw [computeAverageGasPrice, if_neg h0, gasPricesWeiOf, hl]
      rfl
  · have hval : ∀ tx : Transaction,
        parsedValueWei (sanitizeValue tx) = parsedValueWei tx := by
      intro tx
      rw [sanitizeValue]
      by_cases hsome : (jsStringToBigInt (valueArg tx)).isSome
      · rw [if_pos hsome]
      · rw [if_neg hsome]
        have h1 : parsedValueWei { tx with value := "0" } = 0 := rfl
        rw [h1, parsedValueWei]
        cases hopt : jsStringToBigInt (valueArg tx) with
        | none => rfl
        | some v => exact absurd (by rw [hopt]; rfl) hsome
    have hvals : valuesWeiOf (txs.map sanitizeValue) = valuesWeiOf txs := by
      rw [valuesWeiOf, valuesWeiOf, List.map_map]
      refine congrArg _ (List.map_congr_left fun tx _ => ?_)
      exact hval tx
    have hlen : (txs.map sanitizeValue).length = txs.length :=
      List.length_map _ _
    rw [computeTransactionValueStats, computeTransactionValueStats, hlen, hvals]

/-- A transaction whose `value` string is not an integer literal but whose
`gas_price` parses. -/
def badValueTx : Transaction :=
  ⟨"0x3", "0xa", some "0xb", "xyz", "7", "21000", "21000", "1000"⟩

/-- Witness for the amended C1 at a transaction with an unparsable `value`
and a parsable `gas_price`. -/
theorem parse_failure_policy_amended_witness :
    (∃ r, computeAverageGasPrice [badValueTx] = some r) ∧
    computeTransactionValueStats [badValueTx] =
      computeTransactionValueStats ([badValueTx].map sanitizeValue) :=
  parse_failure_policy_amended [badValueTx] (by decide)

/-! ## Claim theorems: exact base-unit arithmetic -/

theorem tdiv_bounds (S n : Int) (hS : 0 ≤ S) (hn : 0 < n) :
    n * S.tdiv n ≤ S ∧ S < n * (S.tdiv n + 1) := by
  rw [Int.tdiv_eq_ediv hS (le_of_lt hn)]
  have hde := Int.ediv_add_emod S n
  have h1 := Int.emod_nonneg S (ne_of_gt hn)
  have h2 := Int.emod_lt_of_pos S hn
  constructor <;> nlinarith [hde, h1, h2]

/-- The reductions performed by both statistics functions on a non-empty
list of positive base-unit amounts: the fold is the exact sum, the
truncating integer quotient is the floor of the exact average, and the
min/max folds return an element bounding the list below/above. -/
theorem posList_stats (g : List Int) (hpos : ∀ x ∈ g, 0 < x) (hne : g ≠ []) :
    (g.foldl (· + ·) 0 = g.sum) ∧
    ((g.length : Int) * (g.foldl (· + ·) 0).tdiv g.length ≤ g.sum ∧
      g.sum < (g.length : Int) * ((g.foldl (· + ·) 0).tdiv g.length + 1)) ∧
    (g.foldl (fun m p => if p < m then p else m) (g.headD 0) ∈ g ∧
      ∀ x ∈ g, g.foldl (fun m p => if p < m then p else m) (g.headD 0) ≤ x) ∧
    (g.foldl (fun m p => if m < p then p else m) (g.headD 0) ∈ g ∧
      ∀ x ∈ g, x ≤ g.foldl (fun m p => if m < p then p else m) (g.headD 0)) := by
  have hsum : g.foldl (· + ·) 0 = g.sum := by rw [foldl_add_int, zero_add]
  have hhead : g.headD 0 ∈ g := by
    cases g with
    | nil => exact absurd rfl hne
    | cons a l => exact List.mem_cons_self a l
  have hlen : (0 : Int) < g.length := by
    cases g with
    | nil => exact absurd rfl hne
    | cons a l => simp
  have hS : (0 : Int) ≤ g.sum := List.sum_nonneg fun x hx => le_of_lt (hpos x hx)
  refine ⟨hsum, ?_, ?_, ?_⟩
  · rw [hsum]
    exact tdiv_bounds g.sum g.length hS hlen
  · rw [min_fun_eq]
    obtain ⟨hmem, hle, hall⟩ := foldl_min_spec g (g.headD 0)
    refine ⟨?_, hall⟩
    rcases hmem with h | h
    · rw [h]; exact hhead
    · exact h
  · rw [max_fun_eq]
    obtain ⟨hmem, hge, hall⟩ := foldl_max_spec g (g.headD 0)
    refine ⟨?_, hall⟩
    rcases hmem with h | h
    · rw [h]; exact hhead
    · exact h

/-- C4: on a non-empty positive-filtered list, sum/min/max are exact
arbitrary-precision integer reductions over base units, the average is the
truncating exact-integer quotient of sum by count, and the single final
display conversion divides those final base-unit integers by 10^9 (gwei)
resp. 10^18 (ETH). -/
theorem exact_base_unit_stats (txs : List Transaction) :
    (∀ (g : List Int) (r : GasPriceStats),
      gasPricesWeiOf txs = some g → g ≠ [] →
      computeAverageGasPrice txs = some r →
      ∃ q mn mx : Int,
        ((g.length : Int) * q ≤ g.sum ∧ g.sum < (g.length : Int) * (q + 1)) ∧
        (mn ∈ g ∧ ∀ x ∈ g, mn ≤ x) ∧ (mx ∈ g ∧ ∀ x ∈ g, x ≤ mx) ∧
        r.averageGasPriceGwei = (q : ℚ) / 10 ^ 9 ∧
        r.minGasPriceGwei = (mn : ℚ) / 10 ^ 9 ∧
        r.maxGasPriceGwei = (mx : ℚ) / 10 ^ 9 ∧
        r.totalTransactions = txs.length) ∧
    (valuesWeiOf txs ≠ [] →
      ∃ q mn mx : Int,
        (((valuesWeiOf txs).length : Int) * q ≤ (valuesWeiOf txs).sum ∧
          (valuesWeiOf txs).sum < ((valuesWeiOf txs).length : Int) * (q + 1)) ∧
        (mn ∈ valuesWeiOf txs ∧ ∀ x ∈ valuesWeiOf txs, mn ≤ x) ∧
        (mx ∈ valuesWeiOf txs ∧ ∀ x ∈ valuesWeiOf txs, x ≤ mx) ∧
        (computeTransactionValueStats txs).totalValueEth =
          ((valuesWeiOf txs).sum : ℚ) / 10 ^ 18 ∧
        (computeTransactionValueStats txs).averageValueEth = (q : ℚ) / 10 ^ 18 ∧
        (computeTransactionValueStats txs).minValueEth = (mn : ℚ) / 10 ^ 18 ∧
        (computeTransactionValueStats txs).maxValueEth = (mx : ℚ) / 10 ^ 18) := by
  constructor
  · intro g r hg hne hr
    have h0 : ¬ txs.length = 0 := by
      intro h0
      obtain rfl : txs = [] := List.length_eq_zero.mp h0
      have : some ([] : List Int) = some g := hg
      exact hne (Option.some_inj.mp this).symm
    rw [computeAverageGasPrice, if_neg h0, hg, Option.map_some'] at hr
    obtain rfl : gasStatsOfList g txs.length = r := Option.some_inj.mp hr
    have hpos : ∀ x ∈ g, 0 < x := by
      rw [gasPricesWeiOf] at hg
      obtain ⟨l, hl, hfil⟩ := Option.map_eq_some'.mp hg
      intro x hx
      rw [← hfil] at hx
      exact of_decide_eq_true (List.mem_filter.mp hx).2
    obtain ⟨hsum, hq, hmn, hmx⟩ := posList_stats g hpos hne
    have hglen : ¬ g.length = 0 := fun h => hne (List.length_eq_zero.mp h)
    refine ⟨(g.foldl (· + ·) 0).tdiv g.length,
      g.foldl (fun m p => if p < m then p else m) (g.headD 0),
      g.foldl (fun m p => if m < p then p else m) (g.headD 0),
      hq, hmn, hmx, ?_, ?_, ?_, ?_⟩ <;>
      rw [gasStatsOfList, if_neg hglen] <;> norm_num [weiToGwei]
  · intro hne
    have h0 : ¬ txs.length = 0 := by
      intro h0
      obtain rfl : txs = [] := List.length_eq_zero.mp h0
      exact hne rfl
    have hpos : ∀ x ∈ valuesWeiOf txs, 0 < x := by
      intro x hx
      rw [valuesWeiOf] at hx
      exact of_decide_eq_true (List.mem_filter.mp hx).2
    obtain ⟨hsum, hq, hmn, hmx⟩ := posList_stats (valuesWeiOf txs) hpos hne
    have hvlen : ¬ (valuesWeiOf txs).length = 0 := fun h =>
      hne (List.length_eq_zero.mp h)
    refine ⟨((valuesWeiOf txs).foldl (· + ·) 0).tdiv (valuesWeiOf txs).length,
      (valuesWeiOf txs).foldl (fun m p => if p < m then p else m)
        ((valuesWeiOf txs).headD 0),
      (valuesWeiOf txs).foldl (fun m p => if m < p then p else m)
        ((valuesWeiOf txs).headD 0),
      hq, hmn, hmx, ?_, ?_, ?_, ?_⟩ <;>
      rw [computeTransactionValueStats, if_neg h0, valueStatsOfList,
        if_neg hvlen] <;> norm_num [weiToEth, hsum]

/-- Three transactions with gas prices 1/2/3 gwei and values 1/2/3 ETH, in
base units. -/
def statsTxs : List Transaction :=
  [⟨"0x1", "0xa", some "0xb", "1000000000000000000", "1000000000", "21000", "21000", "1000"⟩,
   ⟨"0x2", "0xa", some "0xb", "2000000000000000000", "2000000000", "21000", "21000", "1000"⟩,
   ⟨"0x3", "0xa", some "0xb", "3000000000000000000", "3000000000", "21000", "21000", "1000"⟩]

/-- The filtered positive gas-price list of `statsTxs`. -/
def gList : List Int := [1000000000, 2000000000, 3000000000]

/-- Witness for C4 at three concrete transactions. -/
theorem exact_base_unit_stats_witness :
    (∃ q mn mx : Int,
      ((gList.length : Int) * q ≤ gList.sum ∧
        gList.sum < (gList.length : Int) * (q + 1)) ∧
      (mn ∈ gList ∧ ∀ x ∈ gList, mn ≤ x) ∧
      (mx ∈ gList ∧ ∀ x ∈ gList, x ≤ mx) ∧
      (gasStatsOfList gList statsTxs.length).averageGasPriceGwei = (q : ℚ) / 10 ^ 9 ∧
      (gasStatsOfList gList statsTxs.length).minGasPriceGwei = (mn : ℚ) / 10 ^ 9 ∧
      (gasStatsOfList gList statsTxs.length).maxGasPriceGwei = (mx : ℚ) / 10 ^ 9 ∧
      (gasStatsOfList gList statsTxs.length).totalTransactions = statsTxs.length) ∧
    (∃ q mn mx : Int,
      (((valuesWeiOf statsTxs).length : Int) * q ≤ (valuesWeiOf statsTxs).sum ∧
        (valuesWeiOf statsTxs).sum < ((valuesWeiOf statsTxs).length : Int) * (q + 1)) ∧
      (mn ∈ valuesWeiOf statsTxs ∧ ∀ x ∈ valuesWeiOf statsTxs, mn ≤ x) ∧
      (mx ∈ valuesWeiOf statsTxs ∧ ∀ x ∈ valuesWeiOf statsTxs, x ≤ mx) ∧
      (computeTransactionValueStats statsTxs).totalValueEth =
        ((valuesWeiOf statsTxs).sum : ℚ) / 10 ^ 18 ∧
      (computeTransactionValueStats statsTxs).averageValueEth = (q : ℚ) / 10 ^ 18 ∧
      (computeTransactionValueStats statsTxs).minValueEth = (mn : ℚ) / 10 ^ 18 ∧
      (computeTransactionValueStats statsTxs).maxValueEth = (mx : ℚ) / 10 ^ 18) := by
  constructor
  · refine (exact_base_unit_stats statsTxs).1 gList
      (gasStatsOfList gList statsTxs.length) (by decide) (by decide) ?_
    rw [computeAverageGasPrice,
      if_neg (by decide : ¬ statsTxs.length = 0),
      show gasPricesWeiOf statsTxs = some gList from by decide,
      Option.map_some']
  · exact (exact_base_unit_stats statsTxs).2 (by decide)

/-! ## Claim theorems: block time statistics -/

theorem blockLe_trans : ∀ a b c : Block,
    blockLe a b = true → blockLe b c = true → blockLe a c = true := by
  intro a b c
  simp only [blockLe, decide_eq_true_eq]
  omega

theorem blockLe_total : ∀ a b : Block, (blockLe a b || blockLe b a) = true := by
  intro a b
  simp only [blockLe, Bool.or_eq_true, decide_eq_true_eq]
  omega

/-- Strict-or-equal order on blocks by `number`; antisymmetric, which makes
the sorted order of a duplicate-free-by-`number` list unique. -/
def blockNumberOrd (a b : Block) : Prop := a.number < b.number ∨ a = b

instance : IsAntisymm Block blockNumberOrd :=
  ⟨by
    intro a b hab hba
    rcases hab with h | h
    · rcases hba with h' | h'
      · omega
      · exact h'.symm
    · exact h⟩

theorem pairwise_blockNumberOrd_of_sorted (l : List Block)
    (hle : List.Pairwise (fun a b => blockLe a b = true) l)
    (hnd : (l.map Block.number).Nodup) : List.Pairwise blockNumberOrd l := by
  have hne : List.Pairwise (fun a b : Block => a.number ≠ b.number) l :=
    List.pairwise_map.mp hnd
  refine (hle.and hne).imp ?_
  intro a b hab
  left
  have h1 : a.number ≤ b.number := by
    have := hab.1
    simpa [blockLe] using this
  have h2 : a.number ≠ b.number := hab.2
  omega

/-- Sorting by `number` gives the same result for any two permutations of a
block list whose `number` keys are pairwise distinct. -/
theorem mergeSort_eq_of_perm (l₁ l₂ : List Block) (hperm : l₁.Perm l₂)
    (hnd : (l₁.map Block.number).Nodup) :
    l₁.mergeSort blockLe = l₂.mergeSort blockLe := by
  have hp1 := List.mergeSort_perm l₁ blockLe
  have hp2 := List.mergeSort_perm l₂ blockLe
  have hs1 := List.sorted_mergeSort blockLe_trans blockLe_total l₁
  have hs2 := List.sorted_mergeSort blockLe_trans blockLe_total l₂
  have hnd2 : (l₂.map Block.number).Nodup :=
    ((hperm.map Block.number).nodup_iff).mp hnd
  have hnd1' : ((l₁.mergeSort blockLe).map Block.number).Nodup :=
    ((hp1.map Block.number).nodup_iff).mpr hnd
  have hnd2' : ((l₂.mergeSort blockLe).map Block.number).Nodup :=
    ((hp2.map Block.number).nodup_iff).mpr hnd2
  exact List.eq_of_perm_of_sorted ((hp1.trans hperm).trans hp2.symm)
    (pairwise_blockNumberOrd_of_sorted _ hs1 hnd1')
    (pairwise_blockNumberOrd_of_sorted _ hs2 hnd2')

/-- C5: fewer than 2 blocks gives all-zero stats with `totalBlocks` equal
to the input length; otherwise the blocks are sorted ascending by `number`,
the consecutive timestamp deltas of the sorted sequence are formed
(negative or zero deltas propagated as-is), and their arithmetic mean, min
and max are reported with `totalBlocks` the original count — and with
pairwise-distinct block numbers the result is independent of input order. -/
theorem computeBlockTimeStats_spec (blocks blocks₂ : List Block) :
    (blocks.length < 2 →
      computeBlockTimeStats blocks = some ⟨0, 0, 0, blocks.length⟩) ∧
    (∀ r : BlockTimeStats, 2 ≤ blocks.length →
      computeBlockTimeStats blocks = some r →
      ∃ (sorted : List Block) (ts deltas : List Int),
        sorted.Perm blocks ∧
        List.Pairwise (fun a b : Block => a.number ≤ b.number) sorted ∧
        optionMapList (fun b => jsParseInt b.timestamp) sorted = some ts ∧
        deltas = blockTimesOf ts ∧
        deltas.length = blocks.length - 1 ∧
        r.totalBlocks = blocks.length ∧
        r.averageBlockTimeSeconds = (deltas.sum : ℚ) / (deltas.length : ℚ) ∧
        (∃ mn ∈ deltas, r.minBlockTimeSeconds = (mn : ℚ) ∧ ∀ d ∈ deltas, mn ≤ d) ∧
        (∃ mx ∈ deltas, r.maxBlockTimeSeconds = (mx : ℚ) ∧ ∀ d ∈ deltas, d ≤ mx)) ∧
    (blocks.Perm blocks₂ → (blocks.map Block.number).Nodup →
      computeBlockTimeStats blocks = computeBlockTimeStats blocks₂) := by
  refine ⟨?_, ?_, ?_⟩
  · intro h
    rw [computeBlockTimeStats, if_pos h]
  · intro r h2 hr
    rw [computeBlockTimeStats, if_neg (Nat.not_lt.mpr h2),
      blockTimeStatsOfSorted] at hr
    cases hts : optionMapList (fun b => jsParseInt b.timestamp)
        (blocks.mergeSort blockLe) with
    | none => rw [hts] at hr; exact absurd hr (by simp)
    | some ts =>
      rw [hts, Option.map_some'] at hr
      obtain rfl : blockTimeStatsOfTimes (blockTimesOf ts) blocks.length = r :=
        Option.some_inj.mp hr
      have hsortlen : (blocks.mergeSort blockLe).length = blocks.length :=
        (List.mergeSort_perm blocks blockLe).length_eq
      have htslen : ts.length = blocks.length := by
        rw [optionMapList_length _ _ ts hts, hsortlen]
      have hdlen : (blockTimesOf ts).length = blocks.length - 1 := by
        rw [blockTimesOf, List.length_map, List.length_zip, List.length_tail,
          htslen]
        omega
      have hdne : ¬ (blockTimesOf ts).length = 0 := by omega
      have hdnil : blockTimesOf ts ≠ [] := fun h =>
        hdne (by rw [h]; rfl)
      have hhead : (blockTimesOf ts).headD 0 ∈ blockTimesOf ts := by
        cases hbt : blockTimesOf ts with
        | nil => exact absurd hbt hdnil
        | cons a l => exact List.mem_cons_self a l
      refine ⟨blocks.mergeSort blockLe, ts, blockTimesOf ts,
        List.mergeSort_perm blocks blockLe,
        (List.sorted_mergeSort blockLe_trans blockLe_total blocks).imp
          (fun h => by simpa [blockLe] using h),
        hts, rfl, hdlen, ?_, ?_, ?_, ?_⟩
      · rw [blockTimeStatsOfTimes, if_neg hdne]
      · rw [blockTimeStatsOfTimes, if_neg hdne]
        rw [foldl_add_int, zero_add]
      · rw [blockTimeStatsOfTimes, if_neg hdne]
        rw [min_fun_eq]
        obtain ⟨hmem, hle, hall⟩ :=
          foldl_min_spec (blockTimesOf ts) ((blockTimesOf ts).headD 0)
        refine ⟨(blockTimesOf ts).foldl min ((blockTimesOf ts).headD 0),
          ?_, rfl, hall⟩
        rcases hmem with h | h
        · rw [h]; exact hhead
        · exact h
      · rw [blockTimeStatsOfTimes, if_neg hdne]
        rw [max_fun_eq]
        obtain ⟨hmem, hge, hall⟩ :=
          foldl_max_spec (blockTimesOf ts) ((blockTimesOf ts).headD 0)
        refine ⟨(blockTimesOf ts).foldl max ((blockTimesOf ts).headD 0),
          ?_, rfl, hall⟩
        rcases hmem with h | h
        · rw [h]; exact hhead
        · exact h
  · intro hperm hnd
    have hlen := hperm.length_eq
    rw [computeBlockTimeStats, computeBlockTimeStats]
    by_cases h : blocks.length < 2
    · rw [if_pos h, if_pos (by omega), hlen]
    · rw [if_neg h, if_neg (by omega), mergeSort_eq_of_perm blocks blocks₂ hperm hnd,
        hlen]

/-- Two concrete consecutive blocks, 10 seconds apart. -/
def blkA : Block := ⟨"0x1", 100, "1000", 10⟩

/-- A second concrete block. -/
def blkB : Block := ⟨"0x2", 101, "1010", 5⟩

/-- Witness for C5: the single-block case, the two-block case (one delta of
10 seconds), and order-independence for a concrete permutation. -/
theorem computeBlockTimeStats_spec_witness :
    computeBlockTimeStats [blkA] = some ⟨0, 0, 0, 1⟩ ∧
    (∃ (sorted : List Block) (ts deltas : List Int),
      sorted.Perm [blkA, blkB] ∧
      List.Pairwise (fun a b : Block => a.number ≤ b.number) sorted ∧
      optionMapList (fun b => jsParseInt b.timestamp) sorted = some ts ∧
      deltas = blockTimesOf ts ∧
      deltas.length = [blkA, blkB].length - 1 ∧
      (blockTimeStatsOfTimes (blockTimesOf [1000, 1010]) 2).totalBlocks =
        [blkA, blkB].length ∧
      (blockTimeStatsOfTimes (blockTimesOf [1000, 1010]) 2).averageBlockTimeSeconds =
        (deltas.sum : ℚ) / (deltas.length : ℚ) ∧
      (∃ mn ∈ deltas,
        (blockTimeStatsOfTimes (blockTimesOf [1000, 1010]) 2).minBlockTimeSeconds =
          (mn : ℚ) ∧ ∀ d ∈ deltas, mn ≤ d) ∧
      (∃ mx ∈ deltas,
        (blockTimeStatsOfTimes (blockTimesOf [1000, 1010]) 2).maxBlockTimeSeconds =
          (mx : ℚ) ∧ ∀ d ∈ deltas, d ≤ mx)) ∧
    computeBlockTimeStats [blkA, blkB] = computeBlockTimeStats [blkB, blkA] := by
  have hsort : List.mergeSort [blkA, blkB] blockLe = [blkA, blkB] :=
    List.mergeSort_of_sorted (by decide)
  have hr : computeBlockTimeStats [blkA, blkB] =
      some (blockTimeStatsOfTimes (blockTimesOf [1000, 1010]) 2) := by
    rw [computeBlockTimeStats, if_neg (by decide), blockTimeStatsOfSorted, hsort,
      show optionMapList (fun b => jsParseInt b.timestamp) [blkA, blkB] =
        some [1000, 1010] from by decide, Option.map_some']
    rfl
  refine ⟨(computeBlockTimeStats_spec [blkA] []).1 (by decide), ?_, ?_⟩
  · exact (computeBlockTimeStats_spec [blkA, blkB] []).2.1
      (blockTimeStatsOfTimes (blockTimesOf [1000, 1010]) 2) (by decide) hr
  · exact (computeBlockTimeStats_spec [blkA, blkB] [blkB, blkA]).2.2
      (by decide) (by decide)

/-! ## Claim theorems: top addresses -/

/-- `addressCounts.get(addr) || 0` on the association-list model of the JS
`Map`: the count stored for `addr`, 0 when absent. -/
def lookupCount (m : List (String × Nat)) (addr : String) : Nat :=
  ((m.find? fun p => p.1 == addr).map Prod.snd).getD 0

/-- Specification-level occurrence count of an address: one per transaction
whose lowercased non-empty `from` is the address, plus one per transaction
whose lowercased non-null non-empty `to` is the address (a transaction with
`from = to` contributes twice). -/
def addressOccurrences (txs : List Transaction) (addr : String) : Nat :=
  txs.countP (fun tx => decide (senderKey tx = some addr)) +
    txs.countP (fun tx => decide (receiverKey tx = some addr))

theorem bumpAddress_keys (m : List (String × Nat)) (a : String) :
    (bumpAddress m a).map Prod.fst =
      if a ∈ m.map Prod.fst then m.map Prod.fst else m.map Prod.fst ++ [a] := by
  rw [bumpAddress]
  by_cases h : m.any fun p => p.1 == a
  · rw [if_pos h, List.map_map]
    have hmem : a ∈ m.map Prod.fst := by
      obtain ⟨p, hp, hpa⟩ := List.any_eq_true.mp h
      exact List.mem_map.mpr ⟨p, hp, by simpa using hpa⟩
    rw [if_pos hmem]
    refine List.map_congr_left fun p _ => ?_
    simp only [Function.comp_apply]
    split <;> rfl
  · rw [if_neg h]
    have hmem : a ∉ m.map Prod.fst := by
      intro hmem
      obtain ⟨p, hp, hpa⟩ := List.mem_map.mp hmem
      exact h (List.any_eq_true.mpr ⟨p, hp, by simp [hpa]⟩)
    rw [if_neg hmem, List.map_append]
    rfl

theorem bumpAddress_lookup (m : List (String × Nat)) (a addr : String) :
    lookupCount (bumpAddress m a) addr =
      lookupCount m addr + (if addr = a then 1 else 0) := by
  rw [bumpAddress, lookupCount, lookupCount]
  by_cases h : m.any fun p => p.1 == a
  · rw [if_pos h]
    have hcomp : ((fun q : String × Nat => q.1 == addr) ∘
        fun q : String × Nat => if q.1 == a then (q.1, q.2 + 1) else q) =
        fun q : String × Nat => q.1 == addr := by
      funext q
      simp only [Function.comp_apply]
      split <;> rfl
    rw [List.find?_map, hcomp]
    cases hfind : m.find? fun q => q.1 == addr with
    | none =>
      by_cases haddr : addr = a
      · subst haddr
        obtain ⟨p, hp, hpa⟩ := List.any_eq_true.mp h
        exact absurd hpa (by simpa using List.find?_eq_none.mp hfind p hp)
      · simp [haddr]
    | some p =>
      have hp : p.1 = addr := by simpa using List.find?_some hfind
      by_cases haddr : addr = a
      · subst haddr
        simp [hp]
      · simp [hp, haddr]
  · rw [if_neg h, List.find?_append]
    cases hfind : m.find? fun q => q.1 == addr with
    | none =>
      by_cases haddr : addr = a
      · subst haddr
        simp
      · simp [Ne.symm haddr, haddr]
    | some p =>
      by_cases haddr : addr = a
      · subst haddr
        have hp : p.1 = addr := by simpa using List.find?_some hfind
        have hpm := List.mem_of_find?_eq_some hfind
        exact absurd (List.any_eq_true.mpr ⟨p, hpm, by simp [hp]⟩) h
      · simp [haddr]

theorem bumpAddress_counts_pos (m : List (String × Nat)) (a : String)
    (h : ∀ p ∈ m, 1 ≤ p.2) : ∀ p ∈ bumpAddress m a, 1 ≤ p.2 := by
  rw [bumpAddress]
  by_cases hm : m.any fun p => p.1 == a
  · rw [if_pos hm]
    intro p hp
    obtain ⟨q, hq, hfq⟩ := List.mem_map.mp hp
    rw [← hfq]
    split
    · exact Nat.succ_le_succ (Nat.zero_le _)
    · exact h q hq
  · rw [if_neg hm]
    intro p hp
    rcases List.mem_append.mp hp with hp' | hp'
    · exact h p hp'
    · obtain rfl : p = (a, 1) := List.mem_singleton.mp hp'
      exact le_refl 1

theorem senderKey_indicator (tx : Transaction) (addr : String)
    (hf : ¬ tx.«from» = "") :
    (if senderKey tx = some addr then 1 else 0) =
      (if addr = (lowerString tx.«from») then 1 else 0) := by
  rw [senderKey, if_neg hf]
  by_cases h : addr = (lowerString tx.«from»)
  · rw [if_pos (by rw [h]), if_pos h]
  · rw [if_neg (fun hc => h (Option.some_inj.mp hc).symm), if_neg h]

theorem senderKey_indicator_empty (tx : Transaction) (addr : String)
    (hf : tx.«from» = "") :
    (if senderKey tx = some addr then 1 else 0) = 0 := by
  rw [senderKey, if_pos hf, if_neg (by simp)]

theorem receiverKey_indicator (tx : Transaction) (addr t : String)
    (hto : tx.«to» = some t) (ht : ¬ t = "") :
    (if receiverKey tx = some addr then 1 else 0) =
      (if addr = (lowerString t) then 1 else 0) := by
  simp only [receiverKey, hto]
  rw [if_neg ht]
  by_cases h : addr = (lowerString t)
  · rw [if_pos (by rw [h]), if_pos h]
  · rw [if_neg (fun hc => h (Option.some_inj.mp hc).symm), if_neg h]

theorem receiverKey_indicator_none (tx : Transaction) (addr : String)
    (hto : tx.«to» = none) :
    (if receiverKey tx = some addr then 1 else 0) = 0 := by
  simp only [receiverKey, hto]
  rw [if_neg (by simp)]

theorem receiverKey_indicator_empty (tx : Transaction) (addr t : String)
    (hto : tx.«to» = some t) (ht : t = "") :
    (if receiverKey tx = some addr then 1 else 0) = 0 := by
  simp only [receiverKey, hto]
  rw [if_pos ht, if_neg (by simp)]

theorem topStep_lookup (m : List (String × Nat)) (tx : Transaction)
    (addr : String) :
    lookupCount (topStep m tx) addr = lookupCount m addr +
      (if senderKey tx = some addr then 1 else 0) +
      (if receiverKey tx = some addr then 1 else 0) := by
  rcases hto : tx.«to» with _ | t
  · by_cases hf : tx.«from» = ""
    · simp only [topStep, hto, if_pos hf, senderKey_indicator_empty tx addr hf,
        receiverKey_indicator_none tx addr hto]
      simp
    · simp only [topStep, hto, if_neg hf, bumpAddress_lookup,
        senderKey_indicator tx addr hf, receiverKey_indicator_none tx addr hto]
      simp
  · by_cases hf : tx.«from» = "" <;> by_cases ht : t = ""
    · simp only [topStep, hto, if_pos hf, if_pos ht,
        senderKey_indicator_empty tx addr hf,
        receiverKey_indicator_empty tx addr t hto ht]
      simp
    · simp only [topStep, hto, if_pos hf, if_neg ht, bumpAddress_lookup,
        senderKey_indicator_empty tx addr hf,
        receiverKey_indicator tx addr t hto ht]
      omega
    · simp only [topStep, hto, if_neg hf, if_pos ht, bumpAddress_lookup,
        senderKey_indicator tx addr hf,
        receiverKey_indicator_empty tx addr t hto ht]
      simp
    · simp only [topStep, hto, if_neg hf, if_neg ht, bumpAddress_lookup,
        senderKey_indicator tx addr hf,
        receiverKey_indicator tx addr t hto ht]

theorem accum_lookup (txs : List Transaction) :
    ∀ (m : List (String × Nat)) (addr : String),
      lookupCount (txs.foldl topStep m) addr =
        lookupCount m addr + addressOccurrences txs addr := by
  induction txs with
  | nil =>
    intro m addr
    simp [addressOccurrences]
  | cons tx txs ih =>
    intro m addr
    rw [List.foldl_cons, ih, topStep_lookup]
    simp only [addressOccurrences, List.countP_cons]
    by_cases hs : senderKey tx = some addr <;>
      by_cases hr : receiverKey tx = some addr <;>
      simp [hs, hr] <;> omega

theorem bumpAddress_keys_nodup (m : List (String × Nat)) (a : String)
    (h : (m.map Prod.fst).Nodup) : ((bumpAddress m a).map Prod.fst).Nodup := by
  rw [bumpAddress_keys]
  by_cases hmem : a ∈ m.map Prod.fst
  · rwa [if_pos hmem]
  · rw [if_neg hmem, List.nodup_append]
    refine ⟨h, List.nodup_singleton a, ?_⟩
    intro x hx hx'
    obtain rfl : x = a := List.mem_singleton.mp hx'
    exact hmem hx

theorem topStep_keys_nodup (m : List (String × Nat)) (tx : Transaction)
    (h : (m.map Prod.fst).Nodup) : ((topStep m tx).map Prod.fst).Nodup := by
  have h1 : (((if tx.«from» = "" then m
      else bumpAddress m (lowerString tx.«from»))).map Prod.fst).Nodup := by
    by_cases hf : tx.«from» = ""
    · rwa [if_pos hf]
    · rw [if_neg hf]
      exact bumpAddress_keys_nodup m _ h
  rcases hto : tx.«to» with _ | t
  · simpa only [topStep, hto] using h1
  · simp only [topStep, hto]
    by_cases ht : t = ""
    · rwa [if_pos ht]
    · rw [if_neg ht]
      exact bumpAddress_keys_nodup _ _ h1

theorem topStep_counts_pos (m : List (String × Nat)) (tx : Transaction)
    (h : ∀ p ∈ m, 1 ≤ p.2) : ∀ p ∈ topStep m tx, 1 ≤ p.2 := by
  have h1 : ∀ p ∈ (if tx.«from» = "" then m
      else bumpAddress m (lowerString tx.«from»)), 1 ≤ p.2 := by
    by_cases hf : tx.«from» = ""
    · rwa [if_pos hf]
    · rw [if_neg hf]
      exact bumpAddress_counts_pos m _ h
  rcases hto : tx.«to» with _ | t
  · simpa only [topStep, hto] using h1
  · simp only [topStep, hto]
    by_cases ht : t = ""
    · rwa [if_pos ht]
    · rw [if_neg ht]
      exact bumpAddress_counts_pos _ _ h1

theorem accum_keys_nodup (txs : List Transaction) :
    ∀ m : List (String × Nat), (m.map Prod.fst).Nodup →
      ((txs.foldl topStep m).map Prod.fst).Nodup := by
  induction txs with
  | nil => intro m h; exact h
  | cons tx txs ih =>
    intro m h
    rw [List.foldl_cons]
    exact ih _ (topStep_keys_nodup m tx h)

theorem accum_counts_pos (txs : List Transaction) :
    ∀ m : List (String × Nat), (∀ p ∈ m, 1 ≤ p.2) →
      ∀ p ∈ txs.foldl topStep m, 1 ≤ p.2 := by
  induction txs with
  | nil => intro m h; exact h
  | cons tx txs ih =>
    intro m h
    rw [List.foldl_cons]
    exact ih _ (topStep_counts_pos m tx h)

theorem lookupCount_pos_iff (m : List (String × Nat))
    (hpos : ∀ p ∈ m, 1 ≤ p.2) (addr : String) :
    0 < lookupCount m addr ↔ addr ∈ m.map Prod.fst := by
  rw [lookupCount]
  cases hfind : m.find? fun p => p.1 == addr with
  | none =>
    simp only [Option.map_none', Option.getD_none]
    constructor
    · intro h
      exact absurd h (lt_irrefl 0)
    · intro hmem
      obtain ⟨p, hp, hpa⟩ := List.mem_map.mp hmem
      exact absurd (by simp [hpa]) (List.find?_eq_none.mp hfind p hp)
  | some p =>
    have hp : p.1 = addr := by simpa using List.find?_some hfind
    have hpm := List.mem_of_find?_eq_some hfind
    simp only [Option.map_some', Option.getD_some]
    constructor
    · intro _
      exact List.mem_map.mpr ⟨p, hpm, hp⟩
    · intro _
      exact hpos p hpm

theorem countGe_trans : ∀ a b c : String × Nat,
    countGe a b = true → countGe b c = true → countGe a c = true := by
  intro a b c
  simp only [countGe, decide_eq_true_eq]
  omega

theorem countGe_total : ∀ a b : String × Nat,
    (countGe a b || countGe b a) = true := by
  intro a b
  simp only [countGe, Bool.or_eq_true, decide_eq_true_eq]
  omega

/-- C6: the accumulated map counts, for each address, one increment per
transaction with that lowercased non-empty `from` plus one per transaction
with that lowercased non-null non-empty `to` (so `from = to` counts twice);
its keys are exactly the distinct addresses occurring, without duplicates;
the result is that map sorted descending by count with a stable sort (ties
keep first-appearance accumulation order) and truncated to the first
`limit` entries. -/
theorem computeTopAddresses_spec (txs : List Transaction) (limit : Nat) :
    ((accumAddressCounts txs).map Prod.fst).Nodup ∧
    (∀ addr, lookupCount (accumAddressCounts txs) addr =
      addressOccurrences txs addr) ∧
    (∀ addr, addr ∈ (accumAddressCounts txs).map Prod.fst ↔
      0 < addressOccurrences txs addr) ∧
    computeTopAddresses txs limit =
      ((accumAddressCounts txs).mergeSort countGe).take limit ∧
    (computeTopAddresses txs limit).length =
      min limit (accumAddressCounts txs).length ∧
    List.Pairwise (fun a b : String × Nat => b.2 ≤ a.2)
      (computeTopAddresses txs limit) ∧
    (∀ a b : String × Nat, [a, b].Sublist (accumAddressCounts txs) →
      b.2 ≤ a.2 →
      [a, b].Sublist ((accumAddressCounts txs).mergeSort countGe)) := by
  have hlookup : ∀ addr, lookupCount (accumAddressCounts txs) addr =
      addressOccurrences txs addr := by
    intro addr
    rw [accumAddressCounts, accum_lookup txs [] addr]
    simp [lookupCount]
  have hpos : ∀ p ∈ accumAddressCounts txs, 1 ≤ p.2 :=
    accum_counts_pos txs [] (by simp)
  refine ⟨accum_keys_nodup txs [] (by simp), hlookup, ?_, rfl, ?_, ?_, ?_⟩
  · intro addr
    rw [← lookupCount_pos_iff (accumAddressCounts txs) hpos addr, hlookup addr]
  · rw [computeTopAddresses, List.length_take,
      (List.mergeSort_perm (accumAddressCounts txs) countGe).length_eq]
  · have hp := List.sorted_mergeSort countGe_trans countGe_total
      (accumAddressCounts txs)
    refine List.Pairwise.sublist (List.take_sublist limit _) (hp.imp ?_)
    intro a b h
    simpa [countGe] using h
  · intro a b hsub hle
    refine List.sublist_mergeSort countGe_trans countGe_total ?_ hsub
    refine List.pairwise_cons.mpr ⟨?_, List.pairwise_singleton _ b⟩
    intro b' hb'
    obtain rfl : b' = b := List.mem_singleton.mp hb'
    simpa [countGe] using hle

/-- The four transactions of the repository's top-addresses test. -/
def topTxs : List Transaction :=
  [⟨"0x1", "0xA", some "0xB", "0", "1000", "21000", "21000", "1000"⟩,
   ⟨"0x2", "0xA", some "0xC", "0", "1000", "21000", "21000", "1000"⟩,
   ⟨"0x3", "0xA", some "0xB", "0", "1000", "21000", "21000", "1000"⟩,
   ⟨"0x4", "0xB", some "0xC", "0", "1000", "21000", "21000", "1000"⟩]

/-- Witness for C6: on the repository's test data, `0xa` is counted 3 times
and the tied pair (`0xa`, 3), (`0xb`, 3) keeps its accumulation order in
the sorted output. -/
theorem computeTopAddresses_spec_witness :
    lookupCount (accumAddressCounts topTxs) "0xa" = 3 ∧
    [("0xa", 3), ("0xb", 3)].Sublist
      ((accumAddressCounts topTxs).mergeSort countGe) := by
  constructor
  · rw [(computeTopAddresses_spec topTxs 3).2.1 "0xa"]
    decide
  · exact (computeTopAddresses_spec topTxs 3).2.2.2.2.2.2 ("0xa", 3) ("0xb", 3)
      (by decide) (by decide)
